import Mathlib

/-
Verification of the runtime contracts in `src/lib/src/parser.h`:
the small-string-optimized UTF-8 buffer (`TSString` and its operations
`ts_string_new`, `ts_string_push`, `ts_string_char`, `ts_string_eq`,
`ts_string_delete`) and the lexer suspension protocol macros
(`START_LEXER`, `ADVANCE`, `SKIP`, `ACCEPT_TOKEN`, `END_STATE`).

Modelling conventions:
- C bytes (`char`) are stored as natural numbers in [0, 256): the writers
  keep only the low 8 bits (the `(char)` casts), and `memcpy`/`memcmp`
  have unsigned byte semantics.  The decoder's `int32_t c = data[ix]`
  load of a plain `char`, however, sign-extends on the signed-char ABIs
  this header targets (x86-64 gcc/clang, and MSVC via the `_MSC_VER`
  branch), and is modelled that way: `signExtendByte` gives the loaded
  int32 value, and the C bitwise operations on that int32 go through its
  two's-complement bit pattern (`int32Bits`, `int32And`).
- A heap or inline buffer is modelled as the list of bytes written so far;
  a read of a never-written position yields 0, matching the `memset`-zeroed
  storage of `ts_string_new`.  Writing `data[i] = b` is `bufWrite`.
- Allocation effects are made explicit: `ts_string_push` returns the new
  string together with the number of heap allocation calls (`malloc` or
  `realloc`) it performed, and `ts_string_delete` returns the new string
  together with whether `free` was called.
- The union overlay of `content.small` with `content.large` is unobservable
  in C because every read dispatches on `length > SMALL_LEN`; the model
  keeps both fields and dispatches the same way in `ts_string_data`.
-/

/-- SMALL_LEN, the inline-storage threshold of a TSString (parser.h line 236). -/
def SMALL_LEN : Nat := 12

/-- TSString (parser.h lines 241-250): a UTF-8 string with inline storage
for lengths at or below SMALL_LEN and heap storage above it. -/
structure TSString where
  small : List Nat
  largeData : List Nat
  largeCapacity : Nat
  length : Nat
deriving DecidableEq

/-- ts_string_new (parser.h lines 252-256): the all-zero (memset) string. -/
def ts_string_new : TSString := ⟨[], [], 0, 0⟩

/-- ts_string_data (parser.h lines 276-282): the active byte buffer,
selected by comparing length with SMALL_LEN. -/
def ts_string_data (s : TSString) : List Nat :=
  if s.length > SMALL_LEN then s.largeData else s.small

/-- A single byte store `data[i] = b` into a buffer modelled as the list of
bytes written so far (never-written positions read as 0). -/
def bufWrite (d : List Nat) (i : Nat) (b : Nat) : List Nat :=
  d.take i ++ List.replicate (i - d.length) 0 ++ [b] ++ d.drop (i + 1)

/-- Consecutive byte stores `data[i] = b0; data[i+1] = b1; ...`. -/
def bufWriteSeq (d : List Nat) (i : Nat) : List Nat → List Nat
  | [] => d
  | b :: bs => bufWriteSeq (bufWrite d i b) (i + 1) bs

/-- The utf8_len cascade of ts_string_push (parser.h lines 294-303). -/
def ts_utf8_len (c : Nat) : Nat :=
  if c ≤ 0x7f then 1
  else if c ≤ 0x7ff then 2
  else if c ≤ 0xffff then 3
  else 4

/-- The byte sequence written by the encoding part of ts_string_push
(parser.h lines 325-340), with the same nested conditional structure:
the 2-, 3- and 4-byte paths share the trailing continuation-byte writes.
The `% 256` is the `(char)` cast on each stored byte. -/
def ts_utf8_bytes (c : Nat) : List Nat :=
  if c ≤ 0x7f then
    [c % 256]
  else
    ((if c ≤ 0x7ff then
        [((c >>> 6) ||| 0xc0) % 256]
      else
        ((if c ≤ 0xffff then
            [((c >>> 12) ||| 0xe0) % 256]
          else
            [((c >>> 18) ||| 0xf0) % 256, (((c >>> 12) &&& 0x3f) ||| 0x80) % 256]) ++
         [(((c >>> 6) &&& 0x3f) ||| 0x80) % 256])) ++
     [((c &&& 0x3f) ||| 0x80) % 256])

/-- ts_string_push (parser.h lines 293-341).  Returns the updated string and
the number of heap allocation calls performed (the `malloc` of the
inline-to-heap transition, or the growth `realloc`).  The inline-to-heap
branch copies the first `length` bytes of the old buffer (`memcpy`). -/
def ts_string_push (s : TSString) (c : Nat) : TSString × Nat :=
  let utf8_len := ts_utf8_len c
  let old_capacity := if s.length > SMALL_LEN then s.largeCapacity else SMALL_LEN
  let old_data := ts_string_data s
  if s.length + utf8_len > old_capacity then
    let capacity := old_capacity * 2
    if old_capacity > SMALL_LEN then
      (⟨s.small, bufWriteSeq old_data s.length (ts_utf8_bytes c),
        capacity, s.length + utf8_len⟩, 1)
    else
      (⟨s.small, bufWriteSeq (old_data.take s.length) s.length (ts_utf8_bytes c),
        capacity, s.length + utf8_len⟩, 1)
  else
    if s.length > SMALL_LEN then
      (⟨s.small, bufWriteSeq s.largeData s.length (ts_utf8_bytes c),
        s.largeCapacity, s.length + utf8_len⟩, 0)
    else
      (⟨bufWriteSeq s.small s.length (ts_utf8_bytes c), s.largeData,
        s.largeCapacity, s.length + utf8_len⟩, 0)

/-- Pushing a whole list of codepoints in order; the second component
accumulates the heap allocation calls of all the pushes. -/
def ts_string_push_all (cs : List Nat) (s : TSString) : TSString × Nat :=
  match cs with
  | [] => (s, 0)
  | c :: rest =>
    let r := ts_string_push s c
    let r2 := ts_string_push_all rest r.1
    (r2.1, r.2 + r2.2)

/-- memcmp-based equality of the first n bytes of two buffers
(memcmp reads bytes as unsigned values). -/
def ts_memcmp_eq (a b : List Nat) (n : Nat) : Bool :=
  (List.range n).all fun j => a.getD j 0 == b.getD j 0

/-- ts_string_eq (parser.h lines 284-291). -/
def ts_string_eq (a b : TSString) : Bool :=
  if a.length ≠ b.length then false
  else if a.length > SMALL_LEN then ts_memcmp_eq a.largeData b.largeData a.length
  else ts_memcmp_eq a.small b.small a.length

/-- ts_string_delete (parser.h lines 271-274): frees the heap block when
length exceeds SMALL_LEN, then memsets the struct to zero.  The Bool
records whether `free` was called. -/
def ts_string_delete (s : TSString) : TSString × Bool :=
  (⟨[], [], 0, 0⟩, s.length > SMALL_LEN)

/-- The int32 value of `int32_t c = data[ix]` when `data` is a plain
`char` pointer: bytes at or above 0x80 sign-extend on the signed-char
ABIs targeted by parser.h (x86-64 gcc/clang, MSVC). -/
def signExtendByte (b : Nat) : Int :=
  if 128 ≤ b then (b : Int) - 256 else (b : Int)

/-- The two's-complement 32-bit pattern of an int32 value. -/
def int32Bits (x : Int) : Nat := (x % 4294967296).toNat

/-- C bitwise AND of an int32 value with a small non-negative mask
(the result is non-negative, so a Nat). -/
def int32And (x : Int) (m : Nat) : Nat := int32Bits x &&& m

/-- ts_string_char (parser.h lines 343-371): decode one UTF-8 codepoint at
byte offset i, returning the codepoint (or the sentinel -1 past the end)
and the updated index `*i` (unchanged at the sentinel).  The lead byte is
loaded through plain `char` into `int32_t c`, so it sign-extends
(`signExtendByte`); consequently `c < 0xe0` and `c < 0xf0` are signed
comparisons that hold for every lead byte at or above 0x80, and the
three- and four-byte branches below are unreachable (transcribed at the
bit-pattern level; the `% 65536` is the source's `(uint16_t)` cast). -/
def ts_string_char (s : TSString) (i : Nat) : Int × Nat :=
  let data := ts_string_data s
  if i ≥ s.length then (-1, i)
  else
    let c : Int := signExtendByte (data.getD i 0)
    if int32And c 0x80 ≠ 0 then
      if c < 0xe0 then
        (Int.ofNat ((int32And c 0x1f <<< 6) |||
                    int32And (signExtendByte (data.getD (i + 1) 0)) 0x3f), i + 2)
      else if c < 0xf0 then
        (Int.ofNat (((int32Bits c <<< 12) |||
                     (int32And (signExtendByte (data.getD (i + 1) 0)) 0x3f <<< 6) |||
                     int32And (signExtendByte (data.getD (i + 2) 0)) 0x3f) % 65536), i + 3)
      else
        (Int.ofNat ((int32And c 7 <<< 18) |||
                    (int32And (signExtendByte (data.getD (i + 1) 0)) 0x3f <<< 12) |||
                    (int32And (signExtendByte (data.getD (i + 2) 0)) 0x3f <<< 6) |||
                    int32And (signExtendByte (data.getD (i + 3) 0)) 0x3f), i + 4)
    else
      (c, i + 1)

/-- The total UTF-8 encoded length of a list of codepoints. -/
def ts_enc_len (cs : List Nat) : Nat := (cs.map ts_utf8_len).sum

/-
Lexer suspension protocol (parser.h lines 140-171).  A generated scanning
routine is a goto-based automaton built from the macros; the claims concern
only the sequence of protocol operations its run performs, so a run is
modelled as the list of those operations:
- `LexOp.advance sk` is one execution of the `next_state` block reached via
  ADVANCE (sk = false) or SKIP (sk = true): `lexer->advance(lexer, skip)`
  consumes one input unit, modelled as incrementing the cursor position;
- `LexOp.accept sym` is one execution of ACCEPT_TOKEN(sym):
  `result = true; lexer->result_symbol = sym; lexer->mark_end(lexer);`.
START_LEXER initializes `result = false`, and END_STATE returns `result`.
-/

/-- The observable caller-owned lexer context state: the recognized-symbol
slot, the input cursor position, and the position snapshotted by mark_end. -/
structure TSLexerModel where
  result_symbol : Nat
  position : Nat
  marked_end : Nat
deriving DecidableEq

/-- One protocol operation performed by a run of a scanning routine. -/
inductive LexOp where
  | advance (sk : Bool)
  | accept (sym : Nat)
deriving DecidableEq

/-- Execute the remaining operations given the current value of the local
`result` flag, returning what END_STATE returns and the final context. -/
def ts_lex_steps : List LexOp → Bool → TSLexerModel → Bool × TSLexerModel
  | [], result, lx => (result, lx)
  | LexOp.advance _ :: ops, result, lx =>
    ts_lex_steps ops result { lx with position := lx.position + 1 }
  | LexOp.accept sym :: ops, _, lx =>
    ts_lex_steps ops true { lx with result_symbol := sym, marked_end := lx.position }

/-- A full run: START_LEXER (result = false), the operations, END_STATE. -/
def ts_lex_run (ops : List LexOp) (lx : TSLexerModel) : Bool × TSLexerModel :=
  ts_lex_steps ops false lx

/-- Whether a run contains at least one ACCEPT_TOKEN. -/
def ts_lex_hasAccept (ops : List LexOp) : Bool :=
  ops.any fun op => match op with
    | LexOp.accept _ => true
    | LexOp.advance _ => false

/-
Helper lemmas.
-/

theorem bufWrite_at_end (d : List Nat) (b : Nat) : bufWrite d d.length b = d ++ [b] := by
  simp [bufWrite, List.take_of_length_le (Nat.le_refl d.length),
    List.drop_eq_nil_of_le (Nat.le_succ d.length)]

theorem bufWriteSeq_at_end (bs : List Nat) (d : List Nat) (i : Nat) (h : i = d.length) :
    bufWriteSeq d i bs = d ++ bs := by
  induction bs generalizing d i with
  | nil => simp [bufWriteSeq]
  | cons b bs ih =>
    rw [bufWriteSeq, h, bufWrite_at_end]
    rw [ih (d ++ [b]) (d.length + 1) (by simp)]
    simp

theorem ts_utf8_len_pos (c : Nat) : 1 ≤ ts_utf8_len c := by
  unfold ts_utf8_len; split_ifs <;> omega

theorem ts_utf8_len_le_four (c : Nat) : ts_utf8_len c ≤ 4 := by
  unfold ts_utf8_len; split_ifs <;> omega

theorem ts_utf8_bytes_length (c : Nat) : (ts_utf8_bytes c).length = ts_utf8_len c := by
  unfold ts_utf8_bytes ts_utf8_len
  split_ifs <;> rfl

/-- Well-formedness of a TSString as maintained by the C code: the active
buffer holds exactly `length` written bytes, and once on the heap the
tracked capacity exceeds the inline threshold. -/
def ts_goodState (s : TSString) : Prop :=
  (ts_string_data s).length = s.length ∧
  (SMALL_LEN < s.length → SMALL_LEN < s.largeCapacity)

theorem ts_goodState_new : ts_goodState ts_string_new := by
  constructor
  · rfl
  · intro h; simp [ts_string_new] at h

theorem ts_string_push_length (s : TSString) (c : Nat) :
    (ts_string_push s c).1.length = s.length + ts_utf8_len c := by
  simp only [ts_string_push]
  split_ifs <;> rfl

theorem ts_string_push_spec (s : TSString) (c : Nat) (h : ts_goodState s) :
    ts_goodState (ts_string_push s c).1 ∧
    ts_string_data (ts_string_push s c).1 = ts_string_data s ++ ts_utf8_bytes c := by
  obtain ⟨hd, hc⟩ := h
  have hblen := ts_utf8_bytes_length c
  have hupos := ts_utf8_len_pos c
  have hS : SMALL_LEN = 12 := rfl
  by_cases hL : s.length > SMALL_LEN
  · have hcap : s.largeCapacity > SMALL_LEN := hc hL
    have hdata : ts_string_data s = s.largeData := by simp [ts_string_data, hL]
    have hdl : s.largeData.length = s.length := by rw [hdata] at hd; exact hd
    have hw : bufWriteSeq s.largeData s.length (ts_utf8_bytes c)
        = s.largeData ++ ts_utf8_bytes c := bufWriteSeq_at_end _ _ _ hdl.symm
    have hlen' : s.length + ts_utf8_len c > SMALL_LEN := by omega
    by_cases hg : s.length + ts_utf8_len c > s.largeCapacity
    · have hpush : ts_string_push s c =
          (⟨s.small, bufWriteSeq s.largeData s.length (ts_utf8_bytes c),
            s.largeCapacity * 2, s.length + ts_utf8_len c⟩, 1) := by
        simp [ts_string_push, ts_string_data, hL, hg, hcap]
      rw [hpush]
      refine ⟨⟨?_, fun _ => (by omega : SMALL_LEN < s.largeCapacity * 2)⟩, ?_⟩
      · simp [ts_string_data, hlen', hw, hdl, hblen]
      · simp [ts_string_data, hlen', hw, hL]
    · have hpush : ts_string_push s c =
          (⟨s.small, bufWriteSeq s.largeData s.length (ts_utf8_bytes c),
            s.largeCapacity, s.length + ts_utf8_len c⟩, 0) := by
        simp [ts_string_push, ts_string_data, hL, hg]
      rw [hpush]
      refine ⟨⟨?_, fun _ => (by omega : SMALL_LEN < s.largeCapacity)⟩, ?_⟩
      · simp [ts_string_data, hlen', hw, hdl, hblen]
      · simp [ts_string_data, hlen', hw, hL]
  · have hdata : ts_string_data s = s.small := by simp [ts_string_data, hL]
    have hdl : s.small.length = s.length := by rw [hdata] at hd; exact hd
    have hw : bufWriteSeq s.small s.length (ts_utf8_bytes c)
        = s.small ++ ts_utf8_bytes c := bufWriteSeq_at_end _ _ _ hdl.symm
    by_cases hg : s.length + ts_utf8_len c > SMALL_LEN
    · have htake : s.small.take s.length = s.small :=
        List.take_of_length_le (le_of_eq hdl)
      have hpush : ts_string_push s c =
          (⟨s.small, bufWriteSeq (s.small.take s.length) s.length (ts_utf8_bytes c),
            SMALL_LEN * 2, s.length + ts_utf8_len c⟩, 1) := by
        simp [ts_string_push, ts_string_data, hL, hg]
      rw [hpush, htake]
      refine ⟨⟨?_, fun _ => (by omega : SMALL_LEN < SMALL_LEN * 2)⟩, ?_⟩
      · simp [ts_string_data, hg, hw, hdl, hblen]
      · simp [ts_string_data, hg, hw, hL]
    · have hpush : ts_string_push s c =
          (⟨bufWriteSeq s.small s.length (ts_utf8_bytes c), s.largeData,
            s.largeCapacity, s.length + ts_utf8_len c⟩, 0) := by
        simp [ts_string_push, ts_string_data, hL, hg]
      rw [hpush]
      refine ⟨⟨?_, fun hx =>
        absurd hx (by omega : ¬ SMALL_LEN < s.length + ts_utf8_len c)⟩, ?_⟩
      · simp [ts_string_data, hg, hw, hdl, hblen]
      · simp [ts_string_data, hg, hw, hL]

theorem ts_string_push_allocs_small (s : TSString) (c : Nat)
    (h : s.length + ts_utf8_len c ≤ SMALL_LEN) : (ts_string_push s c).2 = 0 := by
  have hupos := ts_utf8_len_pos c
  have hL : ¬ s.length > SMALL_LEN := by omega
  have hg : ¬ s.length + ts_utf8_len c > SMALL_LEN := by omega
  simp [ts_string_push, hL, hg]

theorem ts_string_push_allocs_cross (s : TSString) (c : Nat)
    (hle : s.length ≤ SMALL_LEN) (hgt : SMALL_LEN < s.length + ts_utf8_len c) :
    (ts_string_push s c).2 = 1 := by
  have hL : ¬ s.length > SMALL_LEN := by omega
  simp [ts_string_push, hL, hgt]

theorem ts_string_push_all_length (cs : List Nat) (s : TSString) :
    (ts_string_push_all cs s).1.length = s.length + ts_enc_len cs := by
  induction cs generalizing s with
  | nil => simp [ts_string_push_all, ts_enc_len]
  | cons c rest ih =>
    simp only [ts_string_push_all]
    rw [ih, ts_string_push_length]
    simp [ts_enc_len]
    omega

theorem ts_string_push_all_spec (cs : List Nat) (s : TSString) (h : ts_goodState s) :
    ts_goodState (ts_string_push_all cs s).1 ∧
    ts_string_data (ts_string_push_all cs s).1
      = ts_string_data s ++ (cs.map ts_utf8_bytes).flatten := by
  induction cs generalizing s with
  | nil => simpa [ts_string_push_all] using h
  | cons c rest ih =>
    obtain ⟨h1, h2⟩ := ts_string_push_spec s c h
    obtain ⟨h3, h4⟩ := ih (ts_string_push s c).1 h1
    refine ⟨by simpa [ts_string_push_all] using h3, ?_⟩
    simp only [ts_string_push_all]
    rw [h4, h2]
    simp

theorem ts_string_push_all_allocs_small (cs : List Nat) (s : TSString)
    (h : s.length + ts_enc_len cs ≤ SMALL_LEN) :
    (ts_string_push_all cs s).2 = 0 := by
  induction cs generalizing s with
  | nil => rfl
  | cons c rest ih =>
    have hce : ts_enc_len (c :: rest) = ts_utf8_len c + ts_enc_len rest := by
      simp [ts_enc_len]
    have h1 : (ts_string_push s c).2 = 0 :=
      ts_string_push_allocs_small s c (by omega)
    have h2 : (ts_string_push_all rest (ts_string_push s c).1).2 = 0 := by
      apply ih
      rw [ts_string_push_length]
      omega
    simp only [ts_string_push_all]
    omega

/-
Arithmetic bridges between the bitwise operations of the source and
divmod arithmetic, for bounded operands.
-/

theorem or_f0_bits : ∀ x < 8, x ||| 240 = x + 240 := by decide

theorem or_80_bits : ∀ x < 64, x ||| 128 = x + 128 := by decide

theorem and_3f_eq_mod (x : Nat) : x &&& 63 = x % 64 := by
  have h := Nat.and_pow_two_sub_one_eq_mod x 6
  norm_num at h
  exact h

theorem shiftr_6 (x : Nat) : x >>> 6 = x / 64 := by
  rw [Nat.shiftRight_eq_div_pow]

theorem shiftr_12 (x : Nat) : x >>> 12 = x / 4096 := by
  rw [Nat.shiftRight_eq_div_pow]

theorem shiftr_18 (x : Nat) : x >>> 18 = x / 262144 := by
  rw [Nat.shiftRight_eq_div_pow]

theorem ts_lex_steps_append (xs ys : List LexOp) (r : Bool) (lx : TSLexerModel) :
    ts_lex_steps (xs ++ ys) r lx
      = ts_lex_steps ys (ts_lex_steps xs r lx).1 (ts_lex_steps xs r lx).2 := by
  induction xs generalizing r lx with
  | nil => rfl
  | cons op ops ih => cases op <;> simp [ts_lex_steps, ih]

theorem ts_lex_steps_result (ops : List LexOp) (r : Bool) (lx : TSLexerModel) :
    (ts_lex_steps ops r lx).1 = (r || ts_lex_hasAccept ops) := by
  induction ops generalizing r lx with
  | nil => simp [ts_lex_steps, ts_lex_hasAccept]
  | cons op rest ih => cases op <;> simp [ts_lex_steps, ts_lex_hasAccept, ih]

theorem ts_lex_steps_no_accept (ops : List LexOp) (h : ts_lex_hasAccept ops = false)
    (r : Bool) (lx : TSLexerModel) :
    (ts_lex_steps ops r lx).2.result_symbol = lx.result_symbol ∧
    (ts_lex_steps ops r lx).2.marked_end = lx.marked_end := by
  induction ops generalizing r lx with
  | nil => exact ⟨rfl, rfl⟩
  | cons op rest ih =>
    cases op with
    | advance sk =>
      have hr : ts_lex_hasAccept rest = false := by
        simpa [ts_lex_hasAccept] using h
      simpa [ts_lex_steps] using ih hr r _
    | accept sym => simp [ts_lex_hasAccept] at h

/-- The four-byte encoding, written out (used for the byte-order claim). -/
theorem ts_utf8_bytes_four (c : Nat) (h3 : 0xffff < c) (hc : c ≤ 0x10FFFF) :
    ts_utf8_bytes c
      = [c / 262144 + 240, c / 4096 % 64 + 128, c / 64 % 64 + 128, c % 64 + 128] := by
  have h1 : ¬ c ≤ 0x7f := by omega
  have h2 : ¬ c ≤ 0x7ff := by omega
  have h3n : ¬ c ≤ 0xffff := by omega
  have hx : c / 262144 < 8 := by omega
  have hv : c / 4096 % 64 < 64 := by omega
  have hu : c / 64 % 64 < 64 := by omega
  have hy : c % 64 < 64 := by omega
  unfold ts_utf8_bytes
  rw [if_neg h1, if_neg h2, if_neg h3n]
  simp only [shiftr_18, shiftr_12, shiftr_6, and_3f_eq_mod]
  rw [or_f0_bits _ hx, or_80_bits _ hv, or_80_bits _ hu, or_80_bits _ hy,
    Nat.mod_eq_of_lt (show c / 262144 + 240 < 256 by omega),
    Nat.mod_eq_of_lt (show c / 4096 % 64 + 128 < 256 by omega),
    Nat.mod_eq_of_lt (show c / 64 % 64 + 128 < 256 by omega),
    Nat.mod_eq_of_lt (show c % 64 + 128 < 256 by omega)]
  rfl

/-- The byte content of a string: the first `length` bytes of its active
buffer, as read through `ts_string_data`. -/
def ts_string_content (s : TSString) : List Nat :=
  (List.range s.length).map fun j => (ts_string_data s).getD j 0

/-- C1: refuted on the code as compiled for its targeted ABIs.  Pushing the
scalar value U+4E2D (outside the surrogate range) onto a fresh empty string
and decoding at byte offset 0 does not yield (0x4E2D, 3): the lead byte
0xE4 sign-extends to a negative int32, so `c < 0xe0` holds and the two-byte
branch returns 0x138 with the index advanced to 2. -/
theorem C1_code_bug_eval :
    ts_string_char (ts_string_push ts_string_new 0x4E2D).1 0 = (Int.ofNat 0x138, 2) ∧
    ts_string_char (ts_string_push ts_string_new 0x4E2D).1 0
      ≠ (Int.ofNat 0x4E2D, ts_utf8_len 0x4E2D) := by
  decide

/-- C3: the example behaves as claimed up to the two-byte decode (length 10,
offsets 0 and 1 return U+0041 and U+00E9, offset 10 returns the sentinel),
but the three- and four-byte decodes at offsets 3 and 6 misdecode under the
sign-extending `char` read: they return (0x138, 5) and (0x41F, 8) instead
of the claimed (0x4E2D, 6) and (0x1F600, 10). -/
theorem C3_code_bug_eval :
    (ts_string_push_all [0x41, 0xE9, 0x4E2D, 0x1F600] ts_string_new).1.length = 10 ∧
    ts_string_char (ts_string_push_all [0x41, 0xE9, 0x4E2D, 0x1F600] ts_string_new).1 0
      = (Int.ofNat 0x41, 1) ∧
    ts_string_char (ts_string_push_all [0x41, 0xE9, 0x4E2D, 0x1F600] ts_string_new).1 1
      = (Int.ofNat 0xE9, 3) ∧
    ts_string_char (ts_string_push_all [0x41, 0xE9, 0x4E2D, 0x1F600] ts_string_new).1 3
      = (Int.ofNat 0x138, 5) ∧
    ts_string_char (ts_string_push_all [0x41, 0xE9, 0x4E2D, 0x1F600] ts_string_new).1 3
      ≠ (Int.ofNat 0x4E2D, 6) ∧
    ts_string_char (ts_string_push_all [0x41, 0xE9, 0x4E2D, 0x1F600] ts_string_new).1 6
      = (Int.ofNat 0x41F, 8) ∧
    ts_string_char (ts_string_push_all [0x41, 0xE9, 0x4E2D, 0x1F600] ts_string_new).1 6
      ≠ (Int.ofNat 0x1F600, 10) ∧
    ts_string_char (ts_string_push_all [0x41, 0xE9, 0x4E2D, 0x1F600] ts_string_new).1 10
      = (-1, 10) := by
  decide

/-- C6: for every run of a scanning routine that starts with START_LEXER and
finishes with END_STATE, the returned value equals whether ACCEPT_TOKEN was
invoked at least once during the run; in particular a run with no accept
returns false. -/
theorem C6_end_iff_accept (ops : List LexOp) (lx : TSLexerModel) :
    (ts_lex_run ops lx).1 = ts_lex_hasAccept ops := by
  rw [ts_lex_run, ts_lex_steps_result]
  simp

/-- C7: for every string built purely by pushes from a fresh empty string,
the length field equals the sum of the UTF-8 encoded byte lengths of the
pushed codepoints. -/
theorem C7_length_is_sum (cs : List Nat) :
    (ts_string_push_all cs ts_string_new).1.length = (cs.map ts_utf8_len).sum := by
  rw [ts_string_push_all_length]
  simp [ts_string_new, ts_enc_len]

/-- C9: for every string s and byte offset i at or past the length,
ts_string_char returns the sentinel -1 and leaves the index unchanged. -/
theorem C9_char_past_end (s : TSString) (i : Nat) (h : s.length ≤ i) :
    ts_string_char s i = (-1, i) := by
  simp [ts_string_char, show i ≥ s.length from h]

theorem C9_witness :
    ts_string_new.length ≤ 0 ∧ ts_string_char ts_string_new 0 = (-1, 0) :=
  ⟨by decide, C9_char_past_end ts_string_new 0 (by decide)⟩

/-- C10: deleting any string (inline or heap-backed) resets it to the state
of a freshly created empty string, and deleting again releases no heap
storage and leaves it in that same empty state. -/
theorem C10_delete_resets (s : TSString) :
    (ts_string_delete s).1 = ts_string_new ∧
    ts_string_eq (ts_string_delete s).1 ts_string_new = true ∧
    ts_string_delete (ts_string_delete s).1 = (ts_string_new, false) :=
  ⟨rfl, rfl, rfl⟩

theorem ts_memcmp_iff_content (a b : TSString) (hl : a.length = b.length) :
    ts_memcmp_eq (ts_string_data a) (ts_string_data b) a.length = true ↔
    ts_string_content a = ts_string_content b := by
  unfold ts_memcmp_eq ts_string_content
  rw [← hl]
  rw [List.all_eq_true, List.map_inj_left]
  constructor
  · intro h j hj
    exact eq_of_beq (h j hj)
  · intro h j hj
    exact beq_iff_eq.mpr (h j hj)

/-- C8: ts_string_eq is true exactly when lengths match and the stored bytes
match byte for byte; it is reflexive and symmetric, and depends only on
content (length and the bytes read through the active buffer). -/
theorem C8_eq_content_refl_symm :
    (∀ a b : TSString, ts_string_eq a b = true ↔
      (a.length = b.length ∧ ts_string_content a = ts_string_content b)) ∧
    (∀ a : TSString, ts_string_eq a a = true) ∧
    (∀ a b : TSString, ts_string_eq a b = ts_string_eq b a) := by
  have main : ∀ a b : TSString, ts_string_eq a b = true ↔
      (a.length = b.length ∧ ts_string_content a = ts_string_content b) := by
    intro a b
    unfold ts_string_eq
    by_cases hl : a.length = b.length
    · rw [if_neg (show ¬ a.length ≠ b.length from fun hne => hne hl)]
      by_cases hbig : a.length > SMALL_LEN
      · have hbig2 : b.length > SMALL_LEN := hl ▸ hbig
        have hda : a.largeData = ts_string_data a := by simp [ts_string_data, hbig]
        have hdb : b.largeData = ts_string_data b := by simp [ts_string_data, hbig2]
        rw [if_pos hbig, hda, hdb, ts_memcmp_iff_content a b hl]
        simp [hl]
      · have hbig2 : ¬ b.length > SMALL_LEN := hl ▸ hbig
        have hda : a.small = ts_string_data a := by simp [ts_string_data, hbig]
        have hdb : b.small = ts_string_data b := by simp [ts_string_data, hbig2]
        rw [if_neg hbig, hda, hdb, ts_memcmp_iff_content a b hl]
        simp [hl]
    · rw [if_pos hl]
      simp [hl]
  refine ⟨main, fun a => (main a a).mpr ⟨rfl, rfl⟩, fun a b => ?_⟩
  by_cases hab : ts_string_eq a b = true
  · obtain ⟨h1, h2⟩ := (main a b).mp hab
    rw [hab, (main b a).mpr ⟨h1.symm, h2.symm⟩]
  · have hba : ¬ ts_string_eq b a = true := fun hba => by
      obtain ⟨h1, h2⟩ := (main b a).mp hba
      exact hab ((main a b).mpr ⟨h1.symm, h2.symm⟩)
    rw [Bool.not_eq_true] at hab hba
    rw [hab, hba]

/-- C2: for codepoints above 0xFFFF, ts_string_push appends exactly the four
UTF-8 bytes 0xF0|(c>>18), 0x80|((c>>12)&0x3F), 0x80|((c>>6)&0x3F),
0x80|(c&0x3F) in left-to-right order; and in general a push grows the
length by 1 byte for c ≤ 0x7F, 2 for c ≤ 0x7FF, 3 for c ≤ 0xFFFF,
4 otherwise. -/
theorem C2_push_byte_order :
    (∀ cs c, 0xFFFF < c → c ≤ 0x10FFFF →
      ts_string_data (ts_string_push (ts_string_push_all cs ts_string_new).1 c).1
        = ts_string_data (ts_string_push_all cs ts_string_new).1 ++
          [0xF0 ||| (c >>> 18), 0x80 ||| ((c >>> 12) &&& 0x3F),
           0x80 ||| ((c >>> 6) &&& 0x3F), 0x80 ||| (c &&& 0x3F)]) ∧
    (∀ cs c,
      (ts_string_push (ts_string_push_all cs ts_string_new).1 c).1.length
        = (ts_string_push_all cs ts_string_new).1.length +
          (if c ≤ 0x7F then 1 else if c ≤ 0x7FF then 2 else if c ≤ 0xFFFF then 3 else 4)) := by
  constructor
  · intro cs c h3 hc
    obtain ⟨hg, -⟩ := ts_string_push_all_spec cs ts_string_new ts_goodState_new
    obtain ⟨-, hd⟩ := ts_string_push_spec _ c hg
    rw [hd, ts_utf8_bytes_four c h3 hc]
    have e1 : 0xF0 ||| (c >>> 18) = c / 262144 + 240 := by
      rw [shiftr_18, Nat.lor_comm, or_f0_bits _ (by omega)]
    have e2 : 0x80 ||| ((c >>> 12) &&& 0x3F) = c / 4096 % 64 + 128 := by
      rw [shiftr_12, and_3f_eq_mod, Nat.lor_comm, or_80_bits _ (by omega)]
    have e3 : 0x80 ||| ((c >>> 6) &&& 0x3F) = c / 64 % 64 + 128 := by
      rw [shiftr_6, and_3f_eq_mod, Nat.lor_comm, or_80_bits _ (by omega)]
    have e4 : 0x80 ||| (c &&& 0x3F) = c % 64 + 128 := by
      rw [and_3f_eq_mod, Nat.lor_comm, or_80_bits _ (by omega)]
    rw [e1, e2, e3, e4]
  · intro cs c
    rw [ts_string_push_length]
    rfl

theorem C2_witness :
    (0xFFFF < 0x1F600 ∧ 0x1F600 ≤ 0x10FFFF ∧
      ts_string_data (ts_string_push (ts_string_push_all [] ts_string_new).1 0x1F600).1
        = ts_string_data (ts_string_push_all [] ts_string_new).1 ++
          [0xF0 ||| (0x1F600 >>> 18), 0x80 ||| ((0x1F600 >>> 12) &&& 0x3F),
           0x80 ||| ((0x1F600 >>> 6) &&& 0x3F), 0x80 ||| (0x1F600 &&& 0x3F)]) ∧
    (ts_string_push (ts_string_push_all [] ts_string_new).1 0x41).1.length
      = (ts_string_push_all [] ts_string_new).1.length +
        (if 0x41 ≤ 0x7F then 1 else if 0x41 ≤ 0x7FF then 2
         else if 0x41 ≤ 0xFFFF then 3 else 4) :=
  ⟨⟨by decide, by decide, C2_push_byte_order.1 [] 0x1F600 (by decide) (by decide)⟩,
   C2_push_byte_order.2 [] 0x41⟩

/-- C4: any push sequence whose total encoded length stays at or below
SMALL_LEN performs no heap allocation and keeps the bytes in inline storage;
the push that first brings the total above SMALL_LEN performs exactly one
heap allocation and carries all previously pushed bytes over unchanged; and
once the length exceeds SMALL_LEN it stays above it under further pushes. -/
theorem C4_inline_then_heap :
    (∀ cs, ts_enc_len cs ≤ SMALL_LEN →
      (ts_string_push_all cs ts_string_new).2 = 0 ∧
      (ts_string_push_all cs ts_string_new).1.length ≤ SMALL_LEN ∧
      ts_string_data (ts_string_push_all cs ts_string_new).1
        = (ts_string_push_all cs ts_string_new).1.small) ∧
    (∀ cs c, ts_enc_len cs ≤ SMALL_LEN → SMALL_LEN < ts_enc_len cs + ts_utf8_len c →
      (ts_string_push (ts_string_push_all cs ts_string_new).1 c).2 = 1 ∧
      ts_string_data (ts_string_push (ts_string_push_all cs ts_string_new).1 c).1
        = ts_string_data (ts_string_push_all cs ts_string_new).1 ++ ts_utf8_bytes c ∧
      SMALL_LEN < (ts_string_push (ts_string_push_all cs ts_string_new).1 c).1.length) ∧
    (∀ s cs, SMALL_LEN < s.length → SMALL_LEN < (ts_string_push_all cs s).1.length) := by
  refine ⟨?_, ?_, ?_⟩
  · intro cs h
    have hlen : (ts_string_push_all cs ts_string_new).1.length = ts_enc_len cs := by
      rw [ts_string_push_all_length]
      simp [ts_string_new]
    refine ⟨ts_string_push_all_allocs_small cs ts_string_new (by simpa [ts_string_new] using h),
      by omega, ?_⟩
    unfold ts_string_data
    rw [if_neg (by omega)]
  · intro cs c h1 h2
    have hlen : (ts_string_push_all cs ts_string_new).1.length = ts_enc_len cs := by
      rw [ts_string_push_all_length]
      simp [ts_string_new]
    obtain ⟨hg, -⟩ := ts_string_push_all_spec cs ts_string_new ts_goodState_new
    obtain ⟨-, hd⟩ := ts_string_push_spec _ c hg
    refine ⟨ts_string_push_allocs_cross _ c (by omega) (by omega), hd, ?_⟩
    rw [ts_string_push_length]
    omega
  · intro s cs h
    rw [ts_string_push_all_length]
    omega

theorem C4_witness :
    ((ts_string_push_all (List.replicate 12 0x41) ts_string_new).2 = 0 ∧
      (ts_string_push_all (List.replicate 12 0x41) ts_string_new).1.length ≤ SMALL_LEN ∧
      ts_string_data (ts_string_push_all (List.replicate 12 0x41) ts_string_new).1
        = (ts_string_push_all (List.replicate 12 0x41) ts_string_new).1.small) ∧
    (ts_string_push (ts_string_push_all (List.replicate 12 0x41) ts_string_new).1 0x42).2 = 1 ∧
    SMALL_LEN < (ts_string_push_all [0x43] ⟨[], List.replicate 13 0, 24, 13⟩).1.length :=
  ⟨C4_inline_then_heap.1 (List.replicate 12 0x41) (by decide),
   (C4_inline_then_heap.2.1 (List.replicate 12 0x41) 0x42 (by decide) (by decide)).1,
   C4_inline_then_heap.2.2 ⟨[], List.replicate 13 0, 24, 13⟩ [0x43] (by decide)⟩

/-- C5: ACCEPT_TOKEN does not terminate scanning; in a run that accepts A
and later accepts B with no further accept before END_STATE, the run
returns true, the final reported symbol is B, and the recorded token end is
the position snapshotted at the second accept. -/
theorem C5_later_accept_wins (pre mid post : List LexOp) (A B : Nat) (lx : TSLexerModel)
    (h : ts_lex_hasAccept post = false) :
    (ts_lex_run (pre ++ [LexOp.accept A] ++ mid ++ [LexOp.accept B] ++ post) lx).1 = true ∧
    (ts_lex_run (pre ++ [LexOp.accept A] ++ mid ++ [LexOp.accept B] ++ post) lx).2.result_symbol
      = B ∧
    (ts_lex_run (pre ++ [LexOp.accept A] ++ mid ++ [LexOp.accept B] ++ post) lx).2.marked_end
      = (ts_lex_run (pre ++ [LexOp.accept A] ++ mid ++ [LexOp.accept B]) lx).2.marked_end := by
  have hq : ts_lex_run (pre ++ [LexOp.accept A] ++ mid ++ [LexOp.accept B]) lx
      = (true,
         { (ts_lex_steps (pre ++ [LexOp.accept A] ++ mid) false lx).2 with
           result_symbol := B,
           marked_end := (ts_lex_steps (pre ++ [LexOp.accept A] ++ mid) false lx).2.position }) := by
    rw [ts_lex_run,
      show pre ++ [LexOp.accept A] ++ mid ++ [LexOp.accept B]
        = (pre ++ [LexOp.accept A] ++ mid) ++ [LexOp.accept B] by simp,
      ts_lex_steps_append]
    rfl
  have hsplit : pre ++ [LexOp.accept A] ++ mid ++ [LexOp.accept B] ++ post
      = (pre ++ [LexOp.accept A] ++ mid ++ [LexOp.accept B]) ++ post := by
    simp
  have hrun : ts_lex_run (pre ++ [LexOp.accept A] ++ mid ++ [LexOp.accept B] ++ post) lx
      = ts_lex_steps post true
          { (ts_lex_steps (pre ++ [LexOp.accept A] ++ mid) false lx).2 with
            result_symbol := B,
            marked_end := (ts_lex_steps (pre ++ [LexOp.accept A] ++ mid) false lx).2.position } := by
    have hq2 := hq
    rw [ts_lex_run] at hq2
    rw [ts_lex_run, hsplit, ts_lex_steps_append, hq2]
  obtain ⟨hsym, hmark⟩ := ts_lex_steps_no_accept post h true
    { (ts_lex_steps (pre ++ [LexOp.accept A] ++ mid) false lx).2 with
      result_symbol := B,
      marked_end := (ts_lex_steps (pre ++ [LexOp.accept A] ++ mid) false lx).2.position }
  refine ⟨?_, ?_, ?_⟩
  · rw [hrun, ts_lex_steps_result, h]
    rfl
  · rw [hrun, hsym]
  · rw [hrun, hmark, hq]

theorem C5_witness :
    ts_lex_hasAccept [LexOp.advance true] = false ∧
    (ts_lex_run ([LexOp.advance false] ++ [LexOp.accept 1] ++ [LexOp.advance false] ++
        [LexOp.accept 2] ++ [LexOp.advance true]) ⟨0, 0, 0⟩).1 = true ∧
    (ts_lex_run ([LexOp.advance false] ++ [LexOp.accept 1] ++ [LexOp.advance false] ++
        [LexOp.accept 2] ++ [LexOp.advance true]) ⟨0, 0, 0⟩).2.result_symbol = 2 ∧
    (ts_lex_run ([LexOp.advance false] ++ [LexOp.accept 1] ++ [LexOp.advance false] ++
        [LexOp.accept 2] ++ [LexOp.advance true]) ⟨0, 0, 0⟩).2.marked_end
      = (ts_lex_run ([LexOp.advance false] ++ [LexOp.accept 1] ++ [LexOp.advance false] ++
          [LexOp.accept 2]) ⟨0, 0, 0⟩).2.marked_end :=
  ⟨by decide,
   C5_later_accept_wins [LexOp.advance false] [LexOp.advance false] [LexOp.advance true]
     1 2 ⟨0, 0, 0⟩ (by decide)⟩
